import Mathlib

/-!
Verification of the candidate discovery and convergence pipeline of the
`ai4s_enum` repository: a shallow embedding of the resilient HTTP transport
(`http_utils.safe_request`), the source clients (`search_clients`), the
target-scale parsing (`units.parse_target_scale_upper_bound`), the
convergence controller (`runner.collect_candidates_for_unit`), the batch
classifier (`llm_tool_enricher._enrich_batch`), the per-candidate LLM
analysis (`llm_filter.gemini_analyze`) and the heuristic pre-filter
(`runner._heuristic_is_tool`), together with theorems settling the
specification claims about them.

External effects (the network, the LLM, the random jitter, the clock) are
modelled as explicit parameters: an endpoint is a function from the 1-based
attempt index to the outcome of that attempt, the jitter is a function from
the attempt index to the value drawn by `random.uniform(0, 20)`, and sleeps
are recorded in the result instead of being performed.
-/

namespace Ai4sEnum

/-! ## Resilient transport: `http_utils.safe_request`

One attempt of `requests.request` either raises a transport-level exception
(connection error, timeout) or yields a response; for the pipeline only the
status code of the response matters. -/

inductive AttemptOutcome where
  | exn
  | resp (status : Nat)
deriving DecidableEq, Repr

/-- The default of `safe_request`'s `retry_statuses` parameter. -/
def defaultRetryStatuses : List Nat := [429, 500, 502, 503, 504]

/-- The duration slept before the retry following failed attempt `attempt`:
`(backoff_base ** attempt) + random.uniform(0, 20)`, with the drawn jitter
supplied as `jitter attempt`. -/
def sleepAmount (backoffBase : Rat) (jitter : Nat → Rat) (attempt : Nat) : Rat :=
  backoffBase ^ attempt + jitter attempt

/-- The attempt loop of `safe_request`, from 1-based attempt index `attempt`
with `remaining` loop iterations left (so the final attempt is the one with
`remaining = 1`, matching `attempt == max_retries`).  Returns the returned
response status (`none` when the loop ends without a successful response)
together with the list of sleep durations performed, in order.

Mirrors `http_utils.safe_request`: a status `< 400` is returned at once; a
status in `retry_statuses` raises a synthetic `HTTPError`, any other status
in `[400, 600)` is raised by `resp.raise_for_status()`, and both of these,
like a transport exception, are caught: on the final attempt the function
returns `None` without sleeping; otherwise it sleeps and retries.  A status
`≥ 600` outside `retry_statuses` raises nothing (`raise_for_status` only
raises for 4xx/5xx), so the loop falls through to the next attempt with no
sleep at all. -/
def safeRequestGo (endpoint : Nat → AttemptOutcome) (retrySet : List Nat)
    (backoffBase : Rat) (jitter : Nat → Rat) : Nat → Nat → Option Nat × List Rat
  | _, 0 => (none, [])
  | attempt, remaining + 1 =>
    let caught : Option Nat × List Rat :=
      if remaining = 0 then (none, [])
      else
        let tail := safeRequestGo endpoint retrySet backoffBase jitter (attempt + 1) remaining
        (tail.1, sleepAmount backoffBase jitter attempt :: tail.2)
    match endpoint attempt with
    | .exn => caught
    | .resp s =>
      if s < 400 then (some s, [])
      else if s ∈ retrySet ∨ s < 600 then caught
      else safeRequestGo endpoint retrySet backoffBase jitter (attempt + 1) remaining

/-- `safe_request` with `max_retries = maxRetries`: runs the attempt loop
`for attempt in range(1, max_retries + 1)`. -/
def safe_request (endpoint : Nat → AttemptOutcome) (maxRetries : Nat)
    (backoffBase : Rat) (jitter : Nat → Rat)
    (retrySet : List Nat := defaultRetryStatuses) : Option Nat × List Rat :=
  safeRequestGo endpoint retrySet backoffBase jitter 1 maxRetries

/-! ## JSON values and the batch classifier parse step
(`llm_tool_enricher._enrich_batch`) -/

inductive JVal where
  | null
  | bool (b : Bool)
  | num (n : Int)
  | str (s : String)
  | arr (items : List JVal)
  | obj (fields : List (String × JVal))
deriving Repr

/-- Python truthiness of `item.get(key)`: `None`/missing, `False`, `0`, `""`,
`[]` and `{}` are falsy; everything else is truthy. -/
def jTruthy : Option JVal → Bool
  | none => false
  | some .null => false
  | some (.bool b) => b
  | some (.num n) => n != 0
  | some (.str s) => s != ""
  | some (.arr items) => !items.isEmpty
  | some (.obj fields) => !fields.isEmpty

/-- `d.get(key)` / `key in d` on a JSON object, first-match lookup. -/
def lookupField (key : String) : List (String × JVal) → Option JVal
  | [] => none
  | (k, v) :: rest => if k = key then some v else lookupField key rest

/-- The fallback scan of `_enrich_batch`: the first field of the object whose
value is an array (`for key, value in parsed.items(): if isinstance(value, list)`). -/
def firstArrayField : List (String × JVal) → Option (List JVal)
  | [] => none
  | (_, .arr xs) :: _ => some xs
  | _ :: rest => firstArrayField rest

/-- Locating the results array in the parsed LLM response: a bare array is
used as-is; for an object, the `"results"` field is used when it is an
array, otherwise the first array-valued field; anything else fails. -/
def findResults : JVal → Option (List JVal)
  | .arr xs => some xs
  | .obj fields =>
    match lookupField "results" fields with
    | some (.arr xs) => some xs
    | _ => firstArrayField fields
  | _ => none

/-- `{k: v for k, v in item.items() if k != "idx" and k != "is_tool"}`. -/
def stripVerdictKeys (fields : List (String × JVal)) : List (String × JVal) :=
  fields.filter fun kv => kv.1 != "idx" && kv.1 != "is_tool"

/-- Whether a parsed results item is kept: it is a JSON object whose
`is_tool` field is truthy. -/
def isAcceptedItem : JVal → Bool
  | .obj fields => jTruthy (lookupField "is_tool" fields)
  | _ => false

/-- The final extraction loop of `_enrich_batch`: non-object items are
skipped, items with truthy `is_tool` are kept with the `idx` and `is_tool`
keys stripped; everything else (including items flagged rejected) is
dropped. -/
def extractTools (results : List JVal) : List JVal :=
  results.filterMap fun item =>
    match item with
    | .obj fields =>
      if jTruthy (lookupField "is_tool" fields) then some (.obj (stripVerdictKeys fields))
      else none
    | _ => none

/-- One parse attempt of `_enrich_batch`.  The input is `none` when the
attempt failed before a JSON value was obtained (transport returned `None`,
HTTP error status, empty or non-JSON content — all retried identically), and
`some v` when the unwrapped content parsed to the JSON value `v`.  The
attempt succeeds, yielding the accepted tool records, exactly when a results
array is located in `v`; otherwise the attempt fails and is retried. -/
def enrichParseAttempt (parsed : Option JVal) : Option (List JVal) :=
  match parsed with
  | none => none
  | some v =>
    match findResults v with
    | none => none
    | some results => some (extractTools results)

/-- The retry loop of `_enrich_batch` over its (at most `max_parse_retries`)
parse attempts: the first successful attempt's tool records are returned;
if every attempt fails the batch contributes `[]`. -/
def enrichBatch : List (Option JVal) → List JVal
  | [] => []
  | a :: rest =>
    match enrichParseAttempt a with
    | some tools => tools
    | none => enrichBatch rest

/-! ## Target-scale parsing: `units.parse_target_scale_upper_bound` -/

/-- Python's `str.strip()` on a character list: drop whitespace from both
ends (modelled over the ASCII whitespace characters). -/
def pyStripChars (cs : List Char) : List Char :=
  ((cs.dropWhile Char.isWhitespace).reverse.dropWhile Char.isWhitespace).reverse

/-- Python's `str.strip()`. -/
def pyStrip (s : String) : String :=
  String.mk (pyStripChars s.toList)

/-- `str.split("/")`: split at every `/`, keeping empty pieces (so the
result is always non-empty). -/
def splitSlashGo : List Char → List Char → List (List Char)
  | [], acc => [acc.reverse]
  | c :: cs, acc =>
    if c = '/' then acc.reverse :: splitSlashGo cs []
    else splitSlashGo cs (c :: acc)

/-- `s.replace("—", "-").replace("–", "-")` — both patterns are single
characters, so the two replacements are a character map. -/
def normDash (c : Char) : Char :=
  if c = '—' then '-' else if c = '–' then '-' else c

/-- Single left-to-right scan collecting the maximal digit runs, carrying
the value of the run in progress (`none` when not inside a run). -/
def digitRunsGo : List Char → Option Nat → List Nat
  | [], none => []
  | [], some n => [n]
  | c :: cs, acc =>
    if c.isDigit then digitRunsGo cs (some (10 * acc.getD 0 + (c.toNat - '0'.toNat)))
    else
      match acc with
      | none => digitRunsGo cs none
      | some n => n :: digitRunsGo cs none

/-- `re.findall(r"\d+", s)` followed by `int(...)` on each match: the maximal
runs of (ASCII) digit characters of `s`, left to right, as numbers. -/
def digitRuns (cs : List Char) : List Nat :=
  digitRunsGo cs none

/-- `units.parse_target_scale_upper_bound`: empty string fails; otherwise the
em dash and en dash are normalised to `-`, the digit runs are collected, and
the last one (which for a single run is also the first) is the upper bound;
no digit run means failure. -/
def parse_target_scale_upper_bound (targetScale : String) : Option Nat :=
  if targetScale = "" then none
  else
    let s := pyStripChars (targetScale.toList.map normDash)
    (digitRuns s).getLast?

/-- `parse_target_scale_upper_bound(unit.target_scale) or 300` as used by
both `collect_candidates_for_unit` and the dry-run branch of
`export_unit_json`: the Python `or` replaces not only `None` but also the
falsy parse result `0` with 300. -/
def parseTargetOr300 (targetScale : String) : Nat :=
  match parse_target_scale_upper_bound targetScale with
  | none => 300
  | some n => if n = 0 then 300 else n

/-- `target = max(50, min(target, 800))` after the `or 300` default: the
numeric target resolved by `collect_candidates_for_unit`. -/
def resolve_target (targetScale : String) : Nat :=
  max 50 (min (parseTargetOr300 targetScale) 800)

/-- Modelled from the spec's words, for comparison with `resolve_target`:
the upper bound of the parsed range clamped to `[50, 800]`, with 300 as the
default only when the string is empty or unparsable. -/
def specResolveTarget (targetScale : String) : Nat :=
  max 50 (min ((parse_target_scale_upper_bound targetScale).getD 300) 800)

/-! ## GitHub URL extraction: `search_clients.extract_github_urls` and
`search_clients.github_full_name_from_url` -/

/-- The character class `[A-Za-z0-9_.-]` of the URL pattern. -/
def isNameChar (c : Char) : Bool :=
  c.isAlphanum || c == '_' || c == '.' || c == '-'

/-- Match a literal prefix and return the remainder. -/
def dropLit (lit : List Char) (cs : List Char) : Option (List Char) :=
  if lit.isPrefixOf cs then some (cs.drop lit.length) else none

/-- After the literal `https?://github.com/` has been consumed: greedily take
the owner (`[A-Za-z0-9_.-]+`), require a `/`, greedily take the repository
name; returns owner, name, and the remainder after the match. -/
def ghOwnerRepo (rest : List Char) : Option (String × String × List Char) :=
  if (rest.takeWhile isNameChar).isEmpty then none
  else
    match rest.dropWhile isNameChar with
    | '/' :: r3 =>
      if (r3.takeWhile isNameChar).isEmpty then none
      else
        some (String.mk (rest.takeWhile isNameChar), String.mk (r3.takeWhile isNameChar),
          r3.dropWhile isNameChar)
    | _ => none

/-- Try to match `https?://github\.com/([A-Za-z0-9_.-]+)/([A-Za-z0-9_.-]+)`
at the start of `cs` (the optional `s` tried greedily first, as `re` does). -/
def matchGhAt (cs : List Char) : Option (String × String × List Char) :=
  match dropLit "https://github.com/".toList cs with
  | some rest => ghOwnerRepo rest
  | none =>
    match dropLit "http://github.com/".toList cs with
    | some rest => ghOwnerRepo rest
    | none => none

theorem ghOwnerRepo_rest_length {rest : List Char} {o r : String} {rem : List Char}
    (h : ghOwnerRepo rest = some (o, r, rem)) : rem.length < rest.length := by
  unfold ghOwnerRepo at h
  split at h
  · exact absurd h (by simp)
  · split at h
    case _ r3 heq =>
      split at h
      · exact absurd h (by simp)
      · have hrem : rem = r3.dropWhile isNameChar := by
          injection h with h'
          have := congrArg (fun p => p.2.2) h'
          simpa using this.symm
        have h1 : rem.length ≤ r3.length := hrem ▸ (List.dropWhile_sublist _).length_le
        have h2 : ('/' :: r3).length ≤ rest.length := heq ▸ (List.dropWhile_sublist _).length_le
        have h3 : r3.length < ('/' :: r3).length := Nat.lt_succ_self _
        exact Nat.lt_of_le_of_lt h1 (Nat.lt_of_lt_of_le h3 h2)
    case _ => exact absurd h (by simp)

theorem matchGhAt_rest_length {cs : List Char} {o r : String} {rem : List Char}
    (h : matchGhAt cs = some (o, r, rem)) : rem.length < cs.length := by
  unfold matchGhAt at h
  split at h
  case _ rest heq =>
    have hle : rest.length ≤ cs.length := by
      unfold dropLit at heq
      split at heq
      · cases heq; simp
      · exact absurd heq (by simp)
    exact Nat.lt_of_lt_of_le (ghOwnerRepo_rest_length h) hle
  case _ =>
    split at h
    case _ rest heq =>
      have hle : rest.length ≤ cs.length := by
        unfold dropLit at heq
        split at heq
        · cases heq; simp
        · exact absurd heq (by simp)
      exact Nat.lt_of_lt_of_le (ghOwnerRepo_rest_length h) hle
    case _ => exact absurd h (by simp)

/-- `re.findall` for the fixed pattern: scan left to right, emit each
non-overlapping match (formatted back as `https://github.com/<owner>/<repo>`,
as the source does), resuming after the end of a match.  Structural
recursion on a fuel bound; `extractGhFuel_fuel_irrelevant` below shows any
fuel of at least the input length gives the same answer, so the fuel never
truncates the scan. -/
def extractGhFuel : Nat → List Char → List String
  | 0, _ => []
  | _, [] => []
  | fuel + 1, c :: cs =>
    match matchGhAt (c :: cs) with
    | some (o, r, rest) =>
      ("https://github.com/" ++ o ++ "/" ++ r) :: extractGhFuel fuel rest
    | none => extractGhFuel fuel cs

theorem extractGhFuel_fuel_irrelevant :
    ∀ (fuel fuel' : Nat) (cs : List Char), cs.length ≤ fuel → cs.length ≤ fuel' →
      extractGhFuel fuel cs = extractGhFuel fuel' cs := by
  intro fuel
  induction fuel with
  | zero =>
    intro fuel' cs h _
    have : cs = [] := List.length_eq_zero.mp (Nat.le_zero.mp h)
    subst this
    cases fuel' <;> rfl
  | succ f ih =>
    intro fuel' cs h h'
    match fuel', cs with
    | 0, cs =>
      have : cs = [] := List.length_eq_zero.mp (Nat.le_zero.mp h')
      subst this; rfl
    | f' + 1, [] => rfl
    | f' + 1, c :: cs =>
      simp only [extractGhFuel]
      match hm : matchGhAt (c :: cs) with
      | some (o, r, rest) =>
        have hr : rest.length < (c :: cs).length := matchGhAt_rest_length hm
        have h1 : rest.length ≤ f := by
          have := Nat.lt_of_lt_of_le hr h
          omega
        have h2 : rest.length ≤ f' := by
          have := Nat.lt_of_lt_of_le hr h'
          omega
        simp [ih f' rest h1 h2]
      | none =>
        have h1 : cs.length ≤ f := by simp at h; omega
        have h2 : cs.length ≤ f' := by simp at h'; omega
        simp [ih f' cs h1 h2]

/-- `search_clients.extract_github_urls`. -/
def extract_github_urls (text : String) : List String :=
  if text = "" then [] else extractGhFuel text.toList.length text.toList

/-! ## Web search: `search_clients.web_search` -/

/-- The order-preserving dedup loop at the end of `web_search` (`seen` set
plus output list). -/
def dedupSeen (seen : List String) : List String → List String
  | [] => []
  | u :: us => if u ∈ seen then dedupSeen seen us else u :: dedupSeen (u :: seen) us

/-- One item of the `organic_results` array of the search provider's
response. -/
structure OrganicResult where
  link : String
  snippet : String

/-- `search_clients.web_search`.  `hasSearchKey` is the presence of
`cfg.search_key`; `response` is `none` when `safe_request` returned `None`
(after its own retries) and `some items` when it yielded a parsable body
with the given `organic_results`. -/
def web_search (hasSearchKey : Bool) (num : Int)
    (response : Option (List OrganicResult)) : List String :=
  if !hasSearchKey then []
  else if num ≤ 0 then []
  else
    match response with
    | none => []
    | some items =>
      let urls := items.foldl
        (fun acc it => acc ++ extract_github_urls it.link ++ extract_github_urls it.snippet) []
      dedupSeen [] urls

/-! ## `search_clients.github_full_name_from_url` -/

/-- `[^/]` of the full-name pattern. -/
def isNotSlash (c : Char) : Bool := c != '/'

/-- `[^/#?]` of the full-name pattern. -/
def isFnRepoChar (c : Char) : Bool := c != '/' && c != '#' && c != '?'

/-- After the literal `github.com/`: owner is `[^/]+` greedy, then `/`, then
`[^/#?]+` greedy; the result is formatted `<owner>/<repo>` as the source
does. -/
def fnOwnerRepo (rest : List Char) : Option String :=
  if (rest.takeWhile isNotSlash).isEmpty then none
  else
    match rest.dropWhile isNotSlash with
    | '/' :: r3 =>
      if (r3.takeWhile isFnRepoChar).isEmpty then none
      else some (String.mk (rest.takeWhile isNotSlash) ++ "/" ++ String.mk (r3.takeWhile isFnRepoChar))
    | _ => none

/-- `re.search(r"github\.com/([^/]+)/([^/#?]+)", url)`: the first position at
which the pattern matches, scanning left to right. -/
def fnSearchAux : List Char → Option String
  | [] => none
  | c :: cs =>
    match dropLit "github.com/".toList (c :: cs) with
    | some rest =>
      match fnOwnerRepo rest with
      | some fn => some fn
      | none => fnSearchAux cs
    | none => fnSearchAux cs

/-- `search_clients.github_full_name_from_url`. -/
def github_full_name_from_url (url : String) : Option String :=
  if url = "" then none else fnSearchAux url.toList

/-! ## GitHub repository search: `search_clients.github_search`

One transport call is made per page; a page whose call returned `None` is
skipped (`continue`), a parsable page contributes its `items`.  Only the
`full_name` field of each item is consumed by the runner, so an item is
modelled by that field (`none` when absent). -/

def github_search_items (pageResponses : List (Option (List (Option String)))) :
    List (Option String) :=
  pageResponses.foldl
    (fun acc r =>
      match r with
      | none => acc
      | some items => acc ++ items)
    []

/-! ## Query generation: `query_builder.build_expansion_queries` and
`llm_query_generator.llm_generate_queries` -/

/-- The fixed ecosystem templates, as the suffix each one appends to the
tool name (`"{x} snakemake".format(x=tool)` is `tool ++ " snakemake"`). -/
def ecosystemTemplates : List String :=
  [" snakemake", " nextflow", " pipeline", " workflow", " wrapper", " bioconda", " galaxy"]

/-- `query_builder.build_expansion_queries`: for each seed full name, the
part after the last `/`, stripped; empty tool names are skipped; one query
per template per tool; the result deduplicated preserving first-occurrence
order. -/
def build_expansion_queries (seedRepoFullNames : List String) : List String :=
  let queries := seedRepoFullNames.foldl
    (fun acc fn =>
      let tool := pyStrip (String.mk ((splitSlashGo fn.toList []).getLastD []))
      if tool = "" then acc
      else acc ++ ecosystemTemplates.map (fun tpl => tool ++ tpl))
    []
  dedupSeen [] queries

/-- The three query lists returned by `llm_generate_queries`. -/
structure GeneratedQueries where
  github_queries : List String
  websearch_queries : List String
  known_tools : List String
deriving Repr, DecidableEq

def emptyGeneratedQueries : GeneratedQueries := ⟨[], [], []⟩

/-- `llm_query_generator.llm_generate_queries`.  `response` is `none` when
`safe_request` returned `None`, `some none` when the body or its content
failed to parse (the exception is caught and logged), and `some (some g)`
on success.  Every failure path falls back to the empty lists; nothing is
raised. -/
def llm_generate_queries (hasGeminiKey : Bool)
    (response : Option (Option GeneratedQueries)) : GeneratedQueries :=
  if !hasGeminiKey then emptyGeneratedQueries
  else
    match response with
    | none => emptyGeneratedQueries
    | some none => emptyGeneratedQueries
    | some (some g) => g

/-! ## Per-candidate LLM analysis: `llm_filter.gemini_analyze`

Unlike every other call site, `gemini_analyze` performs its `requests.post`
and `r.raise_for_status()` outside any `try`: transport exceptions and HTTP
error statuses propagate to the caller.  The embedding returns
`Except String JVal`, where `.error` marks an exception escaping the
function.  The pure helper `_extract_first_json_object` (regex plus
`json.loads`, total, catches its own exceptions) is abstracted as the
parameter `extractFirstJsonObject`. -/

inductive GeminiPostOutcome where
  | exn
  | resp (status : Nat) (contentOk : Option String)

/-- `{"is_tool": False, "notes": "llm_disabled"}`. -/
def llmDisabledResult : JVal :=
  .obj [("is_tool", .bool false), ("notes", .str "llm_disabled")]

/-- `{"is_tool": False, "notes": "llm_parse_failed"}`. -/
def llmParseFailedResult : JVal :=
  .obj [("is_tool", .bool false), ("notes", .str "llm_parse_failed")]

/-- `llm_filter.gemini_analyze`.  `contentOk` is the extracted
`r.json()["choices"][0]["message"]["content"]` when the body has that shape,
and `none` when extracting it raises (malformed JSON, missing keys) — that
exception, too, propagates.  Note the Python `obj or {...}`: an empty dict
extracted from the content is falsy and also falls back. -/
def gemini_analyze (hasGeminiKey : Bool) (outcome : GeminiPostOutcome)
    (extractFirstJsonObject : String → Option (List (String × JVal))) : Except String JVal :=
  if !hasGeminiKey then .ok llmDisabledResult
  else
    match outcome with
    | .exn => .error "requests.post raised"
    | .resp s contentOk =>
      if 400 ≤ s ∧ s < 600 then .error "raise_for_status raised HTTPError"
      else
        match contentOk with
        | none => .error "response body extraction raised"
        | some content =>
          .ok (match extractFirstJsonObject content with
            | some fields => if fields.isEmpty then llmParseFailedResult else .obj fields
            | none => llmParseFailedResult)

/-! ## Convergence controller: `runner.collect_candidates_for_unit`

The working set `candidates` is a Python `set`; it is modelled as a
duplicate-free list in insertion order (one deterministic refinement of the
set's iteration order, which the source only uses via `list(candidates)` and
`sorted(candidates)`).  The two search providers are abstracted at the
`github_search` / `web_search` boundary: an environment maps a query to the
`full_name` fields of the repository-search items, respectively to the URL
list the web search produced. -/

structure SearchEnv where
  githubSearch : String → List (Option String)
  webSearch : String → List String

structure RunSt where
  candidates : List String
  searchedGithub : List String
  searchedWeb : List String
  allQueries : List String
deriving Repr, DecidableEq

def initRunSt : RunSt := ⟨[], [], [], []⟩

/-- `candidates.add(fn)` on the insertion-ordered model of the set. -/
def addCandidate (cands : List String) (fn : String) : List String :=
  if fn ∈ cands then cands else cands ++ [fn]

/-- `for item in github_search(...): fn = item.get("full_name"); if fn:
candidates.add(fn)` — missing and empty full names are skipped. -/
def addGithubItems (cands : List String) (items : List (Option String)) : List String :=
  items.foldl
    (fun cs it =>
      match it with
      | some fn => if fn = "" then cs else addCandidate cs fn
      | none => cs)
    cands

/-- One iteration of `run_github_queries`: strip the query, skip it when
empty or already issued, otherwise record it in the GitHub ledger and the
tagged overall ledger and add the found candidates. -/
def runGithubQuery (env : SearchEnv) (st : RunSt) (q0 : String) : RunSt :=
  let q := pyStrip q0
  if q = "" ∨ q ∈ st.searchedGithub then st
  else
    { candidates := addGithubItems st.candidates (env.githubSearch q)
      searchedGithub := st.searchedGithub ++ [q]
      searchedWeb := st.searchedWeb
      allQueries := st.allQueries ++ ["[GH] " ++ q] }

def runGithubQueries (env : SearchEnv) (st : RunSt) (qs : List String) : RunSt :=
  qs.foldl (runGithubQuery env) st

/-- `for url in web_search(...): fn = github_full_name_from_url(url); if fn:
candidates.add(fn)`. -/
def addWebUrls (cands : List String) (urls : List String) : List String :=
  urls.foldl
    (fun cs url =>
      match github_full_name_from_url url with
      | some fn => if fn = "" then cs else addCandidate cs fn
      | none => cs)
    cands

/-- One iteration of `run_web_queries`. -/
def runWebQuery (env : SearchEnv) (st : RunSt) (q0 : String) : RunSt :=
  let q := pyStrip q0
  if q = "" ∨ q ∈ st.searchedWeb then st
  else
    { candidates := addWebUrls st.candidates (env.webSearch q)
      searchedGithub := st.searchedGithub
      searchedWeb := st.searchedWeb ++ [q]
      allQueries := st.allQueries ++ ["[WEB] " ++ q] }

def runWebQueries (env : SearchEnv) (st : RunSt) (qs : List String) : RunSt :=
  qs.foldl (runWebQuery env) st

/-- The expansion loop (`while len(candidates) < target and round_idx <=
max_rounds`), with the fuel counting the remaining admissible round indices
(`max_rounds - 1` of them, for rounds `2 .. max_rounds`).  Returns the final
state together with the number of expansion rounds whose body executed.  A
round takes the first `seed_take` candidates as seeds, issues the expansion
queries through GitHub search only, and breaks out of the loop when the
round added strictly fewer than `converge_delta` new candidates. -/
def expandRounds (env : SearchEnv) (target seedTake convergeDelta : Nat) :
    Nat → RunSt → RunSt × Nat
  | 0, st => (st, 0)
  | fuel + 1, st =>
    if st.candidates.length < target then
      let seeds := st.candidates.take seedTake
      let expansionQueries := build_expansion_queries seeds
      let prev := st.candidates.length
      let st' := runGithubQueries env st expansionQueries
      let newCount := st'.candidates.length - prev
      if newCount < convergeDelta then (st', 1)
      else
        let next := expandRounds env target seedTake convergeDelta fuel st'
        (next.1, next.2 + 1)
    else (st, 0)

structure CollectResult where
  target : Nat
  queries : List String
  candidate_full_names : List String
deriving Repr, DecidableEq

/-- `runner.collect_candidates_for_unit`.  The round-1 query lists are
inputs (they come from `build_github_queries`/`build_websearch_queries` or
from `llm_generate_queries` with the known tools prepended, neither of which
the controller inspects). -/
def collect_candidates_for_unit (env : SearchEnv) (targetScale : String)
    (githubQueries webQueries : List String)
    (maxRounds seedTake convergeDelta : Nat) : CollectResult :=
  let target := resolve_target targetScale
  let st1 := runGithubQueries env initRunSt githubQueries
  let st2 := runWebQueries env st1 webQueries
  let final := (expandRounds env target seedTake convergeDelta (maxRounds - 1) st2).1
  { target := target
    queries := final.allQueries
    candidate_full_names := final.candidates.mergeSort (· ≤ ·) }

/-- The total number of discovery rounds a unit run executes: round 1 plus
the executed expansion rounds. -/
def totalRounds (env : SearchEnv) (targetScale : String)
    (githubQueries webQueries : List String)
    (maxRounds seedTake convergeDelta : Nat) : Nat :=
  let target := resolve_target targetScale
  let st1 := runGithubQueries env initRunSt githubQueries
  let st2 := runWebQueries env st1 webQueries
  1 + (expandRounds env target seedTake convergeDelta (maxRounds - 1) st2).2

/-! ## Heuristic pre-filter and export stage: `runner._heuristic_is_tool`,
`runner.export_unit_json` -/

/-- The candidate dict as consumed by `_heuristic_is_tool`: every field is
optional because the GraphQL-enrichment fallback is the bare
`{"full_name": fn}`. -/
structure Candidate where
  full_name : Option String := none
  url : Option String := none
  description : Option String := none
  language : Option String := none
  stars : Option Int := none
  is_fork : Option Bool := none
  license : Option String := none
deriving Repr, DecidableEq

/-- `runner._heuristic_is_tool`: rejects when `is_fork is True`, when the
description (with `None` defaulted to `""`) strips to empty, or when a star
count is present and below 5; everything else — including a missing star
count — is accepted. -/
def heuristic_is_tool (c : Candidate) : Bool :=
  if c.is_fork = some true then false
  else if pyStrip (c.description.getD "") = "" then false
  else
    match c.stars with
    | some n => decide (5 ≤ n)
    | none => true

/-- Modelled from the spec's words, for comparison with `heuristic_is_tool`:
accept iff not a fork, non-empty description, and at least 5 stars. -/
def specHeuristicAccept (c : Candidate) : Bool :=
  (c.is_fork != some true) && (pyStrip (c.description.getD "") != "") &&
    (match c.stars with
     | some n => decide (5 ≤ n)
     | none => false)

/-- The classification stage of `export_unit_json`: the heuristic filter
runs first, and the LLM enrichment (when enabled) receives exactly the
heuristically accepted candidates; otherwise a pure fallback record is built
per accepted candidate. -/
def export_tools_stage (useLLM : Bool) (llmEnrich : List Candidate → List JVal)
    (fallbackRecord : Candidate → JVal) (candidates : List Candidate) : List JVal :=
  let toolCandidates := candidates.filter heuristic_is_tool
  if useLLM then llmEnrich toolCandidates else toolCandidates.map fallbackRecord

/-! ## Dry run: the `dry_run` branch of `runner.export_unit_json` -/

/-- The `collected` dict built by the dry-run branch, plus the search
metadata recorded in the payload.  The non-dry-run path instead calls
`collect_candidates_for_unit`. -/
def export_unit_core (env : SearchEnv) (dryRun : Bool) (targetScale : String)
    (builtGithubQueries builtWebQueries : List String)
    (maxRounds seedTake convergeDelta : Nat) : Nat × List String :=
  if dryRun then (parseTargetOr300 targetScale, [])
  else
    let collected := collect_candidates_for_unit env targetScale
      builtGithubQueries builtWebQueries maxRounds seedTake convergeDelta
    (collected.target, collected.candidate_full_names)

/-! ## Supporting lemmas -/

theorem extractTools_length_countP (rs : List JVal) :
    (extractTools rs).length = rs.countP isAcceptedItem := by
  induction rs with
  | nil => rfl
  | cons r rest ih =>
    unfold extractTools at ih ⊢
    cases r with
    | obj fields =>
      by_cases h : jTruthy (lookupField "is_tool" fields) = true
      · simp [List.filterMap_cons, List.countP_cons, isAcceptedItem, h, ih]
      · simp [List.filterMap_cons, List.countP_cons, isAcceptedItem, h, ih]
    | null => simp [List.filterMap_cons, List.countP_cons, isAcceptedItem, ih]
    | bool b => simp [List.filterMap_cons, List.countP_cons, isAcceptedItem, ih]
    | num n => simp [List.filterMap_cons, List.countP_cons, isAcceptedItem, ih]
    | str s => simp [List.filterMap_cons, List.countP_cons, isAcceptedItem, ih]
    | arr xs => simp [List.filterMap_cons, List.countP_cons, isAcceptedItem, ih]

theorem enrichBatch_all_fail :
    ∀ attempts : List (Option JVal), (∀ x ∈ attempts, enrichParseAttempt x = none) →
      enrichBatch attempts = [] := by
  intro attempts
  induction attempts with
  | nil => intro _; rfl
  | cons a rest ih =>
    intro h
    have ha := h a (List.mem_cons_self a rest)
    simp only [enrichBatch, ha]
    exact ih fun x hx => h x (List.mem_cons_of_mem a hx)

/-! ## Claim theorems -/

/-- C2 counterexample.  The first response corresponds to a submitted batch
of **one** candidate (index 0), yet the parse attempt is accepted and yields
**two** tool records, exceeding the batch size; the second response
corresponds to a batch of **two** candidates (indices 0 and 1) but carries a
verdict only for index 0 — the parse attempt is still accepted (returning
`some []`) instead of being treated as a failed attempt, so the missing
verdict acts as an implicit rejection.  This falsifies both halves of the
claim. -/
theorem enrichBatch_claim_counterexample :
    enrichBatch [some (.obj [("results", .arr
        [.obj [("idx", .num 0), ("is_tool", .bool true), ("name", .str "A")],
         .obj [("idx", .num 0), ("is_tool", .bool true), ("name", .str "B")]])])] =
      [.obj [("name", .str "A")], .obj [("name", .str "B")]] ∧
    ¬ ((enrichBatch [some (.obj [("results", .arr
        [.obj [("idx", .num 0), ("is_tool", .bool true), ("name", .str "A")],
         .obj [("idx", .num 0), ("is_tool", .bool true), ("name", .str "B")]])])]).length ≤ 1) ∧
    enrichParseAttempt (some (.obj [("results", .arr
        [.obj [("idx", .num 0), ("is_tool", .bool false), ("reason", .str "generic")]])])) =
      some [] :=
  ⟨rfl, by decide, rfl⟩

/-- C2 (amended): a parse attempt of `_enrich_batch` is accepted exactly
when its content parses to JSON and a results array is located in it (bare
array, `results` field, or first array-valued field); no check correlates
the parsed items with the submitted candidate indices, so a candidate whose
verdict is missing is silently dropped rather than failing the attempt, and
the number of returned records equals the number of parsed items flagged
`is_tool` — which is not bounded by the batch size.  The first successful
attempt's records are returned, and a batch all of whose attempts fail
contributes the empty list. -/
theorem enrichBatch_amended :
    (∀ v rs, findResults v = some rs → enrichParseAttempt (some v) = some (extractTools rs)) ∧
    (∀ v, findResults v = none → enrichParseAttempt (some v) = none) ∧
    enrichParseAttempt none = none ∧
    (∀ rs, (extractTools rs).length = rs.countP isAcceptedItem) ∧
    (∀ a rest tools, enrichParseAttempt a = some tools → enrichBatch (a :: rest) = tools) ∧
    (∀ attempts, (∀ x ∈ attempts, enrichParseAttempt x = none) → enrichBatch attempts = []) := by
  refine ⟨?_, ?_, rfl, extractTools_length_countP, ?_, enrichBatch_all_fail⟩
  · intro v rs h; simp [enrichParseAttempt, h]
  · intro v h; simp [enrichParseAttempt, h]
  · intro a rest tools h; simp [enrichBatch, h]

/-- Witness for C2 (amended): instantiation at concrete inputs. -/
theorem enrichBatch_amended_witness :
    findResults (.obj [("results", .arr [.obj [("is_tool", .bool true)]])]) =
      some [.obj [("is_tool", .bool true)]] ∧
    enrichParseAttempt (some (.obj [("results", .arr [.obj [("is_tool", .bool true)]])])) =
      some (extractTools [.obj [("is_tool", .bool true)]]) ∧
    enrichBatch [none, none] = [] :=
  ⟨rfl, enrichBatch_amended.1 _ _ rfl,
    enrichBatch_amended.2.2.2.2.2 [none, none] (by intro x hx; simp at hx; simp [hx, enrichParseAttempt])⟩

/-- C5 counterexample.  The target-scale string `"0"` parses (its upper
bound is 0), so the claim resolves it to `clamp(0) = 50`; but the source's
`parse_target_scale_upper_bound(...) or 300` treats the falsy `0` as a parse
failure, and the code resolves it to 300. -/
theorem resolve_target_claim_counterexample :
    resolve_target "0" = 300 ∧ specResolveTarget "0" = 50 ∧
      resolve_target "0" ≠ specResolveTarget "0" :=
  ⟨by decide, by decide, by decide⟩

/-- C5 (amended): the resolved target is the parsed upper bound clamped to
`[50, 800]`, except that 300 is the default not only for an empty or
unparsable string but also when the parsed upper bound is 0 (the Python
`or 300` swallows the falsy 0); the four quoted examples hold as stated. -/
theorem resolve_target_amended :
    (∀ ts, parse_target_scale_upper_bound ts = none → resolve_target ts = 300) ∧
    (∀ ts, parse_target_scale_upper_bound ts = some 0 → resolve_target ts = 300) ∧
    (∀ ts n, parse_target_scale_upper_bound ts = some n → n ≠ 0 →
      resolve_target ts = max 50 (min n 800)) ∧
    resolve_target "200–450" = 450 ∧ resolve_target "150-350" = 350 ∧
    resolve_target "300" = 300 ∧ resolve_target "" = 300 := by
  refine ⟨?_, ?_, ?_, by decide, by decide, by decide, by decide⟩
  · intro ts h
    simp only [resolve_target, parseTargetOr300, h]
    decide
  · intro ts h
    simp only [resolve_target, parseTargetOr300, h]
    decide
  · intro ts n h hn
    simp [resolve_target, parseTargetOr300, h, hn]

/-- Witness for C5 (amended): instantiation at concrete inputs. -/
theorem resolve_target_amended_witness :
    (parse_target_scale_upper_bound "" = none ∧ resolve_target "" = 300) ∧
    (parse_target_scale_upper_bound "0" = some 0 ∧ resolve_target "0" = 300) ∧
    (parse_target_scale_upper_bound "1000" = some 1000 ∧
      resolve_target "1000" = max 50 (min 1000 800)) :=
  ⟨⟨by decide, resolve_target_amended.1 "" (by decide)⟩,
   ⟨by decide, resolve_target_amended.2.1 "0" (by decide)⟩,
   ⟨by decide, resolve_target_amended.2.2.1 "1000" 1000 (by decide) (by decide)⟩⟩

/-- C9 counterexample.  A candidate that is not a fork and has a non-empty
description but **no star count at all** (`stars is None`, as for a
candidate whose GraphQL enrichment reported a null `stargazerCount`) is
accepted by `_heuristic_is_tool`, although it does not "have at least 5
stars" as the claimed iff requires (`specHeuristicAccept` formalises the
claimed acceptance condition). -/
theorem heuristic_claim_counterexample :
    heuristic_is_tool { description := some "a tool", is_fork := some false } = true ∧
    specHeuristicAccept { description := some "a tool", is_fork := some false } = false :=
  ⟨by decide, by decide⟩

/-- C9 (amended): `_heuristic_is_tool` accepts a candidate iff it is not
flagged as a fork, its description strips to a non-empty string, and its
star count — **when present** — is at least 5 (a candidate with no star
count is not disqualified); the heuristic filter runs first and the LLM
classification stage receives exactly the heuristically accepted
candidates. -/
theorem heuristic_amended :
    (∀ c, heuristic_is_tool c = true ↔
      (c.is_fork ≠ some true ∧ pyStrip (c.description.getD "") ≠ "" ∧
        ∀ n, c.stars = some n → 5 ≤ n)) ∧
    (∀ llmEnrich fallbackRecord cands,
      export_tools_stage true llmEnrich fallbackRecord cands =
        llmEnrich (cands.filter heuristic_is_tool)) ∧
    (∀ (cands : List Candidate) c, c ∈ cands.filter heuristic_is_tool →
      heuristic_is_tool c = true) := by
  refine ⟨?_, ?_, ?_⟩
  · intro c
    unfold heuristic_is_tool
    split
    case _ hfork => simp [hfork]
    case _ hfork =>
      split
      case _ hdesc => simp [hdesc]
      case _ hdesc =>
        cases hstars : c.stars with
        | none => simp [hfork, hdesc, hstars]
        | some n => simp [hfork, hdesc, hstars]
  · intro llmEnrich fallbackRecord cands
    rfl
  · intro cands c h
    exact (List.mem_filter.mp h).2

/-- Witness for C9 (amended): instantiation at concrete inputs. -/
theorem heuristic_amended_witness :
    heuristic_is_tool { description := some "desc", stars := some 9, is_fork := some false } = true ∧
    heuristic_is_tool { description := some "desc", stars := some 9 } = true :=
  ⟨(heuristic_amended.1 _).mpr ⟨by decide, by decide, by intro n hn; cases hn; decide⟩,
   heuristic_amended.2.2 [{ description := some "desc", stars := some 9 }] _ (by decide)⟩

/-- C10 counterexample.  For a unit whose target-scale string is `"0"`
(parsable, upper bound 0), the dry-run branch records 300 — the Python
`or 300` swallows the falsy parsed 0 — while the claim says the recorded
target is the parsed upper bound, i.e. 0. -/
theorem export_dry_run_claim_counterexample :
    export_unit_core ⟨fun _ => [], fun _ => []⟩ true "0" [] [] 6 20 5 = (300, []) ∧
    parse_target_scale_upper_bound "0" = some 0 ∧ (300 : Nat) ≠ 0 :=
  ⟨by decide, by decide, by decide⟩

/-- C10 (amended): with `dry_run=True`, the recorded target is the parsed
upper bound of the target-scale string **without** the `[50, 800]` clamp,
with 300 as the default when the string is unparsable — or when it parses
to 0 (the `or 300` default); the candidate list of the output is empty; and
the result does not depend on the search environment at all (no search or
transport call is made): any two environments give the same dry-run
output.  In contrast the non-dry-run target is clamped (e.g. `"1000"`:
dry-run 1000, full run 800). -/
theorem export_dry_run_amended :
    (∀ env env' ts ghQ webQ maxRounds seedTake delta,
      export_unit_core env true ts ghQ webQ maxRounds seedTake delta =
        export_unit_core env' true ts ghQ webQ maxRounds seedTake delta) ∧
    (∀ env ts ghQ webQ maxRounds seedTake delta,
      export_unit_core env true ts ghQ webQ maxRounds seedTake delta =
        (parseTargetOr300 ts, [])) ∧
    (∀ ts n, parse_target_scale_upper_bound ts = some n → n ≠ 0 → parseTargetOr300 ts = n) ∧
    (∀ ts, parse_target_scale_upper_bound ts = none → parseTargetOr300 ts = 300) ∧
    (∀ ts, parse_target_scale_upper_bound ts = some 0 → parseTargetOr300 ts = 300) ∧
    (parseTargetOr300 "1000" = 1000 ∧ resolve_target "1000" = 800) := by
  refine ⟨?_, ?_, ?_, ?_, ?_, by decide, by decide⟩
  · intro env env' ts ghQ webQ maxRounds seedTake delta
    rfl
  · intro env ts ghQ webQ maxRounds seedTake delta
    rfl
  · intro ts n h hn
    simp [parseTargetOr300, h, hn]
  · intro ts h
    simp [parseTargetOr300, h]
  · intro ts h
    simp [parseTargetOr300, h]

/-- Witness for C10 (amended): instantiation at concrete inputs. -/
theorem export_dry_run_amended_witness :
    export_unit_core ⟨fun _ => [], fun _ => []⟩ true "321" ["q"] [] 6 20 5 =
      (parseTargetOr300 "321", []) ∧
    parse_target_scale_upper_bound "321" = some 321 ∧ parseTargetOr300 "321" = 321 :=
  ⟨export_dry_run_amended.2.1 _ "321" ["q"] [] 6 20 5, by decide,
   export_dry_run_amended.2.2.1 "321" 321 (by decide) (by decide)⟩

theorem dedupSeen_sublist : ∀ (xs seen : List String), (dedupSeen seen xs).Sublist xs
  | [], _ => .slnil
  | u :: us, seen => by
    simp only [dedupSeen]
    split
    · exact (dedupSeen_sublist us seen).cons u
    · exact (dedupSeen_sublist us (u :: seen)).cons₂ u

theorem mem_dedupSeen : ∀ (xs seen : List String) (u : String),
    u ∈ dedupSeen seen xs ↔ u ∈ xs ∧ u ∉ seen := by
  intro xs
  induction xs with
  | nil => intro seen u; simp [dedupSeen]
  | cons x xs ih =>
    intro seen u
    simp only [dedupSeen]
    split
    case _ hx =>
      simp only [ih, List.mem_cons]
      constructor
      · exact fun h => ⟨Or.inr h.1, h.2⟩
      · rintro ⟨h1 | h1, h2⟩
        · exact absurd (h1 ▸ hx) h2
        · exact ⟨h1, h2⟩
    case _ hx =>
      simp only [ih, List.mem_cons]
      constructor
      · rintro (h | ⟨h1, h2⟩)
        · exact ⟨Or.inl h, h ▸ hx⟩
        · exact ⟨Or.inr h1, fun hs => h2 (Or.inr hs)⟩
      · rintro ⟨h1 | h1, h2⟩
        · exact Or.inl h1
        · by_cases hux : u = x
          · exact Or.inl hux
          · exact Or.inr ⟨h1, fun hor => hor.elim hux h2⟩

theorem dedupSeen_nodup : ∀ (xs seen : List String), (dedupSeen seen xs).Nodup := by
  intro xs
  induction xs with
  | nil => intro seen; simp [dedupSeen]
  | cons x xs ih =>
    intro seen
    simp only [dedupSeen]
    split
    · exact ih seen
    · refine List.nodup_cons.mpr ⟨?_, ih (x :: seen)⟩
      intro hmem
      exact ((mem_dedupSeen xs (x :: seen) x).mp hmem).2 (List.mem_cons_self x seen)

/-- The URLs collected by the result loop of `web_search`, before dedup:
for each organic result, in order, the URLs extracted from its link then
from its snippet. -/
def collectedUrls (items : List OrganicResult) : List String :=
  items.foldl
    (fun acc it => acc ++ extract_github_urls it.link ++ extract_github_urls it.snippet) []

/-- C8: the web-search client returns `[]` immediately when no
search-provider credential is configured; otherwise (for a positive result
count) it returns the GitHub repository URLs extracted from each result's
link and snippet text via the fixed pattern, deduplicated preserving
first-occurrence order: the result is exactly the dedup of the collected
URL list — duplicate-free, a sublist of the collected list (so the order of
first occurrences is preserved), and containing exactly the collected
URLs. -/
theorem web_search_spec :
    (∀ (num : Int) response, web_search false num response = []) ∧
    (∀ (num : Int) items, 0 < num →
      web_search true num (some items) = dedupSeen [] (collectedUrls items) ∧
      (web_search true num (some items)).Nodup ∧
      (web_search true num (some items)).Sublist (collectedUrls items) ∧
      (∀ u, u ∈ web_search true num (some items) ↔ u ∈ collectedUrls items)) := by
  constructor
  · intro num response; rfl
  · intro num items hnum
    have hn : ¬ num ≤ 0 := by omega
    have heq : web_search true num (some items) = dedupSeen [] (collectedUrls items) := by
      simp [web_search, hn, collectedUrls]
    refine ⟨heq, heq ▸ dedupSeen_nodup _ _, heq ▸ dedupSeen_sublist _ _, ?_⟩
    intro u
    rw [heq, mem_dedupSeen]
    simp

/-- Witness for C8: instantiation at a concrete response in which the same
repository URL occurs in both a link and a snippet, and the snippet holds a
second URL. -/
theorem web_search_spec_witness :
    (0 : Int) < 5 ∧
    web_search true 5
        (some [⟨"https://github.com/a/b", "see https://github.com/c/d and https://github.com/a/b"⟩]) =
      dedupSeen []
        (collectedUrls [⟨"https://github.com/a/b", "see https://github.com/c/d and https://github.com/a/b"⟩]) ∧
    web_search true 5
        (some [⟨"https://github.com/a/b", "see https://github.com/c/d and https://github.com/a/b"⟩]) =
      ["https://github.com/a/b", "https://github.com/c/d"] :=
  ⟨by decide, (web_search_spec.2 5 _ (by decide)).1, by decide⟩

/-- Whether an attempt outcome makes `safe_request` return immediately: a
response with status below 400. -/
def isSuccess : AttemptOutcome → Bool
  | .exn => false
  | .resp s => decide (s < 400)

/-- Whether a failed attempt outcome raises (and so, on a non-final attempt,
is followed by a backoff sleep): a transport exception, a status in the
retryable set, or any other status in `[400, 600)`.  A status `≥ 600`
outside the retryable set is a silent failure: no exception, no sleep. -/
def isSleepingFailure (retrySet : List Nat) : AttemptOutcome → Bool
  | .exn => true
  | .resp s => decide (¬ s < 400) && (decide (s ∈ retrySet) || decide (s < 600))

/-- The sleeps the attempt loop performs over attempts
`start, …, start + len - 1`, assuming none of them succeeds: one sleep of
`backoff_base ^ k + jitter k` per sleeping failure at attempt `k`. -/
def expectedSleeps (endpoint : Nat → AttemptOutcome) (retrySet : List Nat)
    (backoffBase : Rat) (jitter : Nat → Rat) (start len : Nat) : List Rat :=
  (List.range' start len).filterMap
    (fun k => if isSleepingFailure retrySet (endpoint k) then some (sleepAmount backoffBase jitter k)
      else none)

theorem expectedSleeps_zero (endpoint retrySet b j a) :
    expectedSleeps endpoint retrySet b j a 0 = [] := rfl

theorem expectedSleeps_succ (endpoint retrySet b j a len) :
    expectedSleeps endpoint retrySet b j a (len + 1) =
      (if isSleepingFailure retrySet (endpoint a) then [sleepAmount b j a] else []) ++
        expectedSleeps endpoint retrySet b j (a + 1) len := by
  simp only [expectedSleeps, List.range'_succ, List.filterMap_cons]
  split <;> simp_all

theorem safeRequestGo_step_success {endpoint : Nat → AttemptOutcome} {retrySet : List Nat}
    {b : Rat} {j : Nat → Rat} {a s : Nat} (r : Nat)
    (hend : endpoint a = .resp s) (hs : s < 400) :
    safeRequestGo endpoint retrySet b j a (r + 1) = (some s, []) := by
  simp [safeRequestGo, hend, hs]

theorem safeRequestGo_step_sleeping {endpoint : Nat → AttemptOutcome} {retrySet : List Nat}
    {b : Rat} {j : Nat → Rat} {a : Nat} (r : Nat)
    (hf : isSleepingFailure retrySet (endpoint a) = true) :
    safeRequestGo endpoint retrySet b j a (r + 1) =
      if r = 0 then (none, [])
      else ((safeRequestGo endpoint retrySet b j (a + 1) r).1,
        sleepAmount b j a :: (safeRequestGo endpoint retrySet b j (a + 1) r).2) := by
  cases hend : endpoint a with
  | exn => simp [safeRequestGo, hend]
  | resp s =>
    rw [hend] at hf
    simp only [isSleepingFailure, Bool.and_eq_true, decide_eq_true_eq, Bool.or_eq_true] at hf
    simp [safeRequestGo, hend, hf.1, hf.2]

theorem safeRequestGo_step_silent {endpoint : Nat → AttemptOutcome} {retrySet : List Nat}
    {b : Rat} {j : Nat → Rat} {a : Nat} (r : Nat)
    (hsucc : isSuccess (endpoint a) = false)
    (hf : isSleepingFailure retrySet (endpoint a) = false) :
    safeRequestGo endpoint retrySet b j a (r + 1) =
      safeRequestGo endpoint retrySet b j (a + 1) r := by
  cases hend : endpoint a with
  | exn => rw [hend] at hf; simp [isSleepingFailure] at hf
  | resp s =>
    rw [hend] at hsucc hf
    have hs : ¬ s < 400 := by simpa [isSuccess] using hsucc
    have hor : ¬ (s ∈ retrySet ∨ s < 600) := by
      intro h
      rw [isSleepingFailure] at hf
      rcases h with h | h <;> simp [hs, h] at hf
    simp [safeRequestGo, hend, hs, hor]

theorem safeRequestGo_all_fail (endpoint : Nat → AttemptOutcome) (retrySet : List Nat)
    (b : Rat) (j : Nat → Rat) :
    ∀ (r a : Nat), (∀ k, a ≤ k → k < a + r → isSuccess (endpoint k) = false) →
      safeRequestGo endpoint retrySet b j a r =
        (none, expectedSleeps endpoint retrySet b j a (r - 1)) := by
  intro r
  induction r with
  | zero => intro a _; rfl
  | succ r ih =>
    intro a h
    have ha : isSuccess (endpoint a) = false := h a (Nat.le_refl a) (by omega)
    have htail := ih (a + 1) (fun k h1 h2 => h k (by omega) (by omega))
    cases hsl : isSleepingFailure retrySet (endpoint a) with
    | true =>
      rw [safeRequestGo_step_sleeping r hsl]
      cases r with
      | zero => simp [expectedSleeps_zero]
      | succ r' =>
        rw [if_neg (Nat.succ_ne_zero r'), htail]
        have : r' + 1 + 1 - 1 = r' + 1 := rfl
        rw [this, expectedSleeps_succ]
        simp [hsl]
    | false =>
      rw [safeRequestGo_step_silent r ha hsl, htail]
      cases r with
      | zero => simp [expectedSleeps_zero]
      | succ r' =>
        have : r' + 1 + 1 - 1 = r' + 1 := rfl
        rw [this, expectedSleeps_succ]
        simp [hsl]

theorem safeRequestGo_first_success (endpoint : Nat → AttemptOutcome) (retrySet : List Nat)
    (b : Rat) (j : Nat → Rat) :
    ∀ (r a k s : Nat), a ≤ k → k < a + r → endpoint k = .resp s → s < 400 →
      (∀ m, a ≤ m → m < k → isSuccess (endpoint m) = false) →
      safeRequestGo endpoint retrySet b j a r =
        (some s, expectedSleeps endpoint retrySet b j a (k - a)) := by
  intro r
  induction r with
  | zero => intro a k s h1 h2 _ _ _; omega
  | succ r ih =>
    intro a k s h1 h2 hk hs hfail
    by_cases hka : k = a
    · subst hka
      rw [safeRequestGo_step_success r hk hs]
      simp [Nat.sub_self, expectedSleeps_zero]
    · have hak : a < k := by omega
      have ha : isSuccess (endpoint a) = false := hfail a (Nat.le_refl a) hak
      have hcons : k - a = (k - (a + 1)) + 1 := by omega
      cases hsl : isSleepingFailure retrySet (endpoint a) with
      | true =>
        rw [safeRequestGo_step_sleeping r hsl]
        cases r with
        | zero => omega
        | succ r' =>
          have htail := ih (a + 1) k s (by omega) (by omega) hk hs
            (fun m hm1 hm2 => hfail m (by omega) hm2)
          rw [if_neg (Nat.succ_ne_zero r'), htail, hcons, expectedSleeps_succ]
          simp [hsl]
      | false =>
        have htail := ih (a + 1) k s (by omega) (by omega) hk hs
          (fun m hm1 hm2 => hfail m (by omega) hm2)
        rw [safeRequestGo_step_silent r ha hsl, htail, hcons, expectedSleeps_succ]
        simp [hsl]


theorem safeRequestGo_fst_cases (endpoint : Nat → AttemptOutcome) (retrySet : List Nat)
    (b : Rat) (j : Nat → Rat) :
    ∀ (r a : Nat), (safeRequestGo endpoint retrySet b j a r).1 = none ∨
      ∃ s, (safeRequestGo endpoint retrySet b j a r).1 = some s ∧ s < 400 := by
  intro r
  induction r with
  | zero => intro a; exact Or.inl rfl
  | succ r ih =>
    intro a
    cases hend : endpoint a with
    | exn =>
      by_cases hr : r = 0
      · subst hr; left; simp [safeRequestGo, hend]
      · rcases ih (a + 1) with h | ⟨s, hs1, hs2⟩
        · left; simp [safeRequestGo, hend, hr, h]
        · right; exact ⟨s, by simp [safeRequestGo, hend, hr, hs1], hs2⟩
    | resp s' =>
      by_cases hs' : s' < 400
      · right; exact ⟨s', by simp [safeRequestGo, hend, hs'], hs'⟩
      · by_cases hsl : s' ∈ retrySet ∨ s' < 600
        · by_cases hr : r = 0
          · subst hr; left; simp [safeRequestGo, hend, hs', hsl]
          · rcases ih (a + 1) with h | ⟨s, hs1, hs2⟩
            · left; simp [safeRequestGo, hend, hs', hsl, hr, h]
            · right; exact ⟨s, by simp [safeRequestGo, hend, hs', hsl, hr, hs1], hs2⟩
        · rcases ih (a + 1) with h | ⟨s, hs1, hs2⟩
          · left; simpa [safeRequestGo, hend, hs', hsl] using h
          · right; exact ⟨s, by simpa [safeRequestGo, hend, hs', hsl] using hs1, hs2⟩

theorem filterMap_if_true {α β : Type} (f : α → β) (p : α → Bool) (h : ∀ x, p x = true) :
    ∀ l : List α, l.filterMap (fun x => if p x then some (f x) else none) = l.map f := by
  intro l
  induction l with
  | nil => rfl
  | cons x xs ih => simp [List.filterMap_cons, h x, ih]

theorem github_search_items_join (pageResponses : List (Option (List (Option String)))) :
    github_search_items pageResponses = (pageResponses.filterMap id).flatten := by
  suffices h : ∀ acc, pageResponses.foldl
      (fun acc r => match r with | none => acc | some items => acc ++ items) acc =
      acc ++ (pageResponses.filterMap id).flatten by
    simpa [github_search_items] using h []
  induction pageResponses with
  | nil => intro acc; simp
  | cons p rest ih =>
    intro acc
    cases p with
    | none => simpa [List.filterMap_cons] using ih acc
    | some items => simp [List.filterMap_cons, ih (acc ++ items)]

/-- C1 counterexample.  With the default retryable set, an endpoint that
returns status 600 on attempt 1 and 200 on attempt 2 (max_retries = 2): the
status 600 is `≥ 400` but is neither returned nor raised
(`raise_for_status` only raises for statuses in `[400, 600)`), so the loop
falls through and retries **without any backoff sleep** — the run performs a
non-final retry (the 200 comes from attempt 2) yet the recorded sleep list
is empty, not the claimed `[backoff_base^1 + jitter 1]`. -/
theorem safe_request_claim_counterexample :
    safe_request (fun k => if k = 1 then .resp 600 else .resp 200) 2 (3 / 2) (fun _ => 0) =
      (some 200, []) ∧
    ([] : List Rat) ≠ [sleepAmount (3 / 2) (fun _ => 0) 1] :=
  ⟨rfl, by simp⟩

/-- C1 (amended): as the claim states, but with "any other status ≥ 400"
weakened to "any other status in `[400, 600)`": a response with status below
400 is returned immediately (the returned response is the first success and
nothing else is ever returned); statuses in the retryable set, other
statuses in `[400, 600)`, and transport exceptions are caught, the function
returning `none` after the final failed attempt and sleeping
`backoff_base^attempt + uniform_random(0, 20)` before each non-final retry;
a status `≥ 600` outside the retryable set silently advances to the next
attempt with no sleep.  In particular 503, 503, 200 yields the 200 response
after exactly the two backoff sleeps, and an always-404 endpoint returns
`none` after exhausting all attempts with one sleep per non-final attempt. -/
theorem safe_request_amended :
    (∀ endpoint maxRetries b j retrySet,
      (∀ k, 1 ≤ k → k ≤ maxRetries → isSuccess (endpoint k) = false) →
      safe_request endpoint maxRetries b j retrySet =
        (none, expectedSleeps endpoint retrySet b j 1 (maxRetries - 1))) ∧
    (∀ endpoint maxRetries b j retrySet k s, 1 ≤ k → k ≤ maxRetries →
      endpoint k = .resp s → s < 400 →
      (∀ m, 1 ≤ m → m < k → isSuccess (endpoint m) = false) →
      safe_request endpoint maxRetries b j retrySet =
        (some s, expectedSleeps endpoint retrySet b j 1 (k - 1))) ∧
    (∀ b j, safe_request (fun k => if k ≤ 2 then .resp 503 else .resp 200) 3 b j =
      (some 200, [sleepAmount b j 1, sleepAmount b j 2])) ∧
    (∀ b j (n : Nat), safe_request (fun _ => .resp 404) n b j =
      (none, (List.range' 1 (n - 1)).map (sleepAmount b j))) := by
  refine ⟨?_, ?_, ?_, ?_⟩
  · intro endpoint maxRetries b j retrySet h
    exact safeRequestGo_all_fail endpoint retrySet b j maxRetries 1
      (fun k h1 h2 => h k h1 (by omega))
  · intro endpoint maxRetries b j retrySet k s h1 h2 hk hs hfail
    exact safeRequestGo_first_success endpoint retrySet b j maxRetries 1 k s h1 (by omega) hk hs
      (fun m hm1 hm2 => hfail m hm1 hm2)
  · intro b j
    rfl
  · intro b j n
    have h := safeRequestGo_all_fail (fun _ => .resp 404) defaultRetryStatuses b j n 1
      (fun k _ _ => rfl)
    rw [safe_request, h]
    rw [expectedSleeps, filterMap_if_true (sleepAmount b j)
      (fun k => isSleepingFailure defaultRetryStatuses ((fun _ => AttemptOutcome.resp 404) k))
      (fun k => rfl)]

/-- Witness for C1 (amended): instantiation at concrete endpoints. -/
theorem safe_request_amended_witness :
    safe_request (fun _ => .resp 404) 3 (3 / 2) (fun _ => 0) =
      (none, expectedSleeps (fun _ => .resp 404) defaultRetryStatuses (3 / 2) (fun _ => 0) 1 2) ∧
    safe_request (fun k => if k ≤ 2 then .resp 503 else .resp 200) 3 (3 / 2) (fun _ => 0) =
      (some 200,
        expectedSleeps (fun k => if k ≤ 2 then .resp 503 else .resp 200) defaultRetryStatuses
          (3 / 2) (fun _ => 0) 1 2) :=
  ⟨safe_request_amended.1 _ 3 _ _ _ (fun k _ _ => rfl),
   safe_request_amended.2.1 _ 3 _ _ _ 3 200 (by decide) (by decide) (by decide) (by decide)
     (by intro m h1 h2; interval_cases m <;> rfl)⟩

/-- C4 counterexample.  `gemini_analyze` (the per-candidate LLM analysis) is
the one core operation with no exception handling: with a configured key, a
404 response makes `r.raise_for_status()` raise an `HTTPError` that
propagates to the caller (modelled as the `.error` result), and a transport
exception from `requests.post` propagates likewise — neither failure path
degrades to an empty/none contribution. -/
theorem gemini_analyze_raises_counterexample :
    gemini_analyze true (.resp 404 (some "")) (fun _ => none) =
      .error "raise_for_status raised HTTPError" ∧
    gemini_analyze true .exn (fun _ => none) = .error "requests.post raised" :=
  ⟨rfl, rfl⟩

/-- C4 (amended): every core sub-step **except the per-candidate LLM
analysis** degrades to an empty/none contribution on failure: the transport
returns the first sub-400 response or `none`, never anything else; the web
search returns `[]` without a credential or on transport failure; the LLM
query generator falls back to empty lists on every failure path; the
repository search skips failed pages and keeps the successful ones; the
batch enricher contributes `[]` when all parse attempts fail.
`gemini_analyze`, however, propagates transport exceptions and HTTP error
statuses in `[400, 600)` to its caller. -/
theorem core_error_containment_amended :
    (∀ endpoint maxRetries b j retrySet,
      (safe_request endpoint maxRetries b j retrySet).1 = none ∨
      ∃ s, (safe_request endpoint maxRetries b j retrySet).1 = some s ∧ s < 400) ∧
    (∀ (num : Int) response, web_search false num response = []) ∧
    (∀ hasKey (num : Int), web_search hasKey num none = []) ∧
    (∀ response, llm_generate_queries false response = emptyGeneratedQueries) ∧
    (∀ hasKey, llm_generate_queries hasKey none = emptyGeneratedQueries ∧
      llm_generate_queries hasKey (some none) = emptyGeneratedQueries) ∧
    (∀ pageResponses, github_search_items pageResponses =
      (pageResponses.filterMap id).flatten) ∧
    (∀ attempts, (∀ x ∈ attempts, enrichParseAttempt x = none) → enrichBatch attempts = []) ∧
    (∀ s contentOk extract, 400 ≤ s → s < 600 →
      gemini_analyze true (.resp s contentOk) extract =
        .error "raise_for_status raised HTTPError") ∧
    (∀ extract, gemini_analyze true .exn extract = .error "requests.post raised") := by
  refine ⟨?_, ?_, ?_, ?_, ?_, ?_, enrichBatch_all_fail, ?_, ?_⟩
  · intro endpoint maxRetries b j retrySet
    exact safeRequestGo_fst_cases endpoint retrySet b j maxRetries 1
  · intro num response; rfl
  · intro hasKey num
    cases hasKey
    · rfl
    · simp only [web_search]
      split
      · rfl
      · split <;> rfl
  · intro response; rfl
  · intro hasKey
    cases hasKey <;> exact ⟨rfl, rfl⟩
  · intro pageResponses
    exact github_search_items_join pageResponses
  · intro s contentOk extract h4 h6
    simp [gemini_analyze, h4, h6]
  · intro extract; rfl

/-- Witness for C4 (amended): instantiation at concrete inputs. -/
theorem core_error_containment_amended_witness :
    enrichBatch [none] = [] ∧
    gemini_analyze true (.resp 500 none) (fun _ => none) =
      .error "raise_for_status raised HTTPError" :=
  ⟨core_error_containment_amended.2.2.2.2.2.2.1 [none]
      (by intro x hx; simp at hx; simp [hx, enrichParseAttempt]),
   core_error_containment_amended.2.2.2.2.2.2.2.1 500 none (fun _ => none) (by decide) (by decide)⟩

theorem string_append_left_cancel {a b c : String} (h : a ++ b = a ++ c) : b = c := by
  have hd := congrArg String.data h
  simp only [String.data_append] at hd
  exact congrArg String.mk (List.append_cancel_left hd)

theorem gh_tag_ne_web_tag (q q' : String) : "[GH] " ++ q ≠ "[WEB] " ++ q' := by
  intro h
  have hd := congrArg String.data h
  simp only [String.data_append] at hd
  have h1 : ("[GH] ".data ++ q.data).get? 1 = some 'G' := rfl
  have h2 : ("[WEB] ".data ++ q'.data).get? 1 = some 'W' := rfl
  rw [hd, h2] at h1
  simp at h1

/-- The state invariant maintained by one unit run: the candidate working
set and the tagged query ledger are duplicate-free, and every tagged ledger
entry is backed by the corresponding per-provider searched set. -/
structure LedgerInv (st : RunSt) : Prop where
  cand_nodup : st.candidates.Nodup
  ledger_nodup : st.allQueries.Nodup
  gh_mem : ∀ q, ("[GH] " ++ q) ∈ st.allQueries → q ∈ st.searchedGithub
  web_mem : ∀ q, ("[WEB] " ++ q) ∈ st.allQueries → q ∈ st.searchedWeb

theorem initRunSt_inv : LedgerInv initRunSt :=
  ⟨List.nodup_nil, List.nodup_nil, by intro q h; simp [initRunSt] at h,
    by intro q h; simp [initRunSt] at h⟩

theorem addCandidate_nodup {cands : List String} {fn : String} (h : cands.Nodup) :
    (addCandidate cands fn).Nodup := by
  unfold addCandidate
  split
  · exact h
  case _ hmem => simp [List.nodup_append, h, hmem]

theorem addGithubItems_cons (cands : List String) (it : Option String)
    (rest : List (Option String)) :
    addGithubItems cands (it :: rest) =
      addGithubItems
        (match it with
          | some fn => if fn = "" then cands else addCandidate cands fn
          | none => cands) rest := rfl

theorem addGithubItems_nodup : ∀ (items : List (Option String)) (cands : List String),
    cands.Nodup → (addGithubItems cands items).Nodup := by
  intro items
  induction items with
  | nil => intro cands h; exact h
  | cons it rest ih =>
    intro cands h
    rw [addGithubItems_cons]
    cases it with
    | none => exact ih _ h
    | some fn =>
      by_cases hfn : fn = ""
      · exact ih _ (by simpa [hfn] using h)
      · exact ih _ (by simpa [hfn] using addCandidate_nodup h)

theorem addWebUrls_cons (cands : List String) (url : String) (rest : List String) :
    addWebUrls cands (url :: rest) =
      addWebUrls
        (match github_full_name_from_url url with
          | some fn => if fn = "" then cands else addCandidate cands fn
          | none => cands) rest := rfl

theorem addWebUrls_nodup : ∀ (urls : List String) (cands : List String),
    cands.Nodup → (addWebUrls cands urls).Nodup := by
  intro urls
  induction urls with
  | nil => intro cands h; exact h
  | cons url rest ih =>
    intro cands h
    rw [addWebUrls_cons]
    cases github_full_name_from_url url with
    | none => exact ih _ h
    | some fn =>
      by_cases hfn : fn = ""
      · exact ih _ (by simpa [hfn] using h)
      · exact ih _ (by simpa [hfn] using addCandidate_nodup h)

theorem runGithubQuery_inv {env : SearchEnv} {st : RunSt} {q : String} (h : LedgerInv st) :
    LedgerInv (runGithubQuery env st q) := by
  simp only [runGithubQuery]
  split
  · exact h
  case _ hskip =>
    push_neg at hskip
    refine ⟨addGithubItems_nodup _ _ h.cand_nodup, ?_, ?_, ?_⟩
    · simp only [List.nodup_append, List.nodup_cons, List.nodup_nil]
      refine ⟨h.ledger_nodup, by simp, ?_⟩
      intro x hx
      simp only [List.mem_singleton]
      intro hx2
      subst hx2
      exact hskip.2 (h.gh_mem _ hx)
    · intro q' hq'
      rcases List.mem_append.mp hq' with hq' | hq'
      · exact List.mem_append.mpr (Or.inl (h.gh_mem q' hq'))
      · simp only [List.mem_singleton] at hq'
        have : q' = pyStrip q := string_append_left_cancel hq'
        subst this
        simp
    · intro q' hq'
      rcases List.mem_append.mp hq' with hq' | hq'
      · exact h.web_mem q' hq'
      · simp only [List.mem_singleton] at hq'
        exact absurd hq'.symm (gh_tag_ne_web_tag _ _)

theorem runWebQuery_inv {env : SearchEnv} {st : RunSt} {q : String} (h : LedgerInv st) :
    LedgerInv (runWebQuery env st q) := by
  simp only [runWebQuery]
  split
  · exact h
  case _ hskip =>
    push_neg at hskip
    refine ⟨addWebUrls_nodup _ _ h.cand_nodup, ?_, ?_, ?_⟩
    · simp only [List.nodup_append, List.nodup_cons, List.nodup_nil]
      refine ⟨h.ledger_nodup, by simp, ?_⟩
      intro x hx
      simp only [List.mem_singleton]
      intro hx2
      subst hx2
      exact hskip.2 (h.web_mem _ hx)
    · intro q' hq'
      rcases List.mem_append.mp hq' with hq' | hq'
      · exact h.gh_mem q' hq'
      · simp only [List.mem_singleton] at hq'
        exact absurd hq' (gh_tag_ne_web_tag _ _)
    · intro q' hq'
      rcases List.mem_append.mp hq' with hq' | hq'
      · exact List.mem_append.mpr (Or.inl (h.web_mem q' hq'))
      · simp only [List.mem_singleton] at hq'
        have : q' = pyStrip q := string_append_left_cancel hq'
        subst this
        simp

theorem runGithubQueries_inv {env : SearchEnv} {st : RunSt} (qs : List String)
    (h : LedgerInv st) : LedgerInv (runGithubQueries env st qs) := by
  induction qs generalizing st with
  | nil => exact h
  | cons q rest ih =>
    simp only [runGithubQueries, List.foldl_cons] at *
    exact ih (runGithubQuery_inv h)

theorem runWebQueries_inv {env : SearchEnv} {st : RunSt} (qs : List String)
    (h : LedgerInv st) : LedgerInv (runWebQueries env st qs) := by
  induction qs generalizing st with
  | nil => exact h
  | cons q rest ih =>
    simp only [runWebQueries, List.foldl_cons] at *
    exact ih (runWebQuery_inv h)

theorem expandRounds_inv {env : SearchEnv} {target seedTake convergeDelta : Nat} :
    ∀ (fuel : Nat) (st : RunSt), LedgerInv st →
      LedgerInv (expandRounds env target seedTake convergeDelta fuel st).1 := by
  intro fuel
  induction fuel with
  | zero => intro st h; exact h
  | succ f ih =>
    intro st h
    simp only [expandRounds]
    split
    · split
      · exact runGithubQueries_inv _ h
      · exact ih _ (runGithubQueries_inv _ h)
    · exact h

theorem expandRounds_count_le {env : SearchEnv} {target seedTake convergeDelta : Nat} :
    ∀ (fuel : Nat) (st : RunSt),
      (expandRounds env target seedTake convergeDelta fuel st).2 ≤ fuel := by
  intro fuel
  induction fuel with
  | zero => intro st; simp [expandRounds]
  | succ f ih =>
    intro st
    simp only [expandRounds]
    split
    · split
      · simp
      · simpa using Nat.succ_le_succ (ih _)
    · simp

/-- C3: for every environment and every input, one unit run executes at
most `max_rounds + 1` discovery rounds in total (the model's controller is
a total function, so it always terminates), and whenever an expansion
round's body adds strictly fewer new candidates than the convergence
threshold, the loop stops immediately after that round — the round counter
for the remaining loop is exactly 1 regardless of the remaining fuel and of
whether the target was reached. -/
theorem convergence_rounds_bound :
    (∀ env targetScale ghQueries webQueries maxRounds seedTake convergeDelta,
      totalRounds env targetScale ghQueries webQueries maxRounds seedTake convergeDelta ≤
        maxRounds + 1) ∧
    (∀ env target seedTake convergeDelta fuel st,
      st.candidates.length < target →
      (runGithubQueries env st
          (build_expansion_queries (st.candidates.take seedTake))).candidates.length -
          st.candidates.length < convergeDelta →
      expandRounds env target seedTake convergeDelta (fuel + 1) st =
        (runGithubQueries env st (build_expansion_queries (st.candidates.take seedTake)), 1)) := by
  constructor
  · intro env targetScale ghQueries webQueries maxRounds seedTake convergeDelta
    have h := @expandRounds_count_le env (resolve_target targetScale)
      seedTake convergeDelta (maxRounds - 1)
      (runWebQueries env (runGithubQueries env initRunSt ghQueries) webQueries)
    simp only [totalRounds]
    omega
  · intro env target seedTake convergeDelta fuel st h1 h2
    simp only [expandRounds]
    rw [if_pos h1, if_pos h2]

/-- Witness for C3: instantiation at a concrete environment and state. -/
theorem convergence_rounds_bound_witness :
    initRunSt.candidates.length < 50 ∧
    expandRounds ⟨fun _ => [], fun _ => []⟩ 50 20 5 1 initRunSt =
      (runGithubQueries ⟨fun _ => [], fun _ => []⟩ initRunSt
        (build_expansion_queries (initRunSt.candidates.take 20)), 1) :=
  ⟨by decide, convergence_rounds_bound.2 ⟨fun _ => [], fun _ => []⟩ 50 20 5 0 initRunSt
    (by decide) (by decide)⟩

/-- C6: across all rounds and both providers of a unit run, no query is
issued twice — the produced query ledger (with its `[GH] `/`[WEB] `
provenance tags) contains no string twice, and a (stripped) query that is
already in the per-provider searched set is skipped without touching the
state. -/
theorem query_ledger_nodup :
    (∀ env targetScale ghQueries webQueries maxRounds seedTake convergeDelta,
      (collect_candidates_for_unit env targetScale ghQueries webQueries maxRounds seedTake
        convergeDelta).queries.Nodup) ∧
    (∀ env st q, pyStrip q ∈ st.searchedGithub → runGithubQuery env st q = st) ∧
    (∀ env st q, pyStrip q ∈ st.searchedWeb → runWebQuery env st q = st) := by
  refine ⟨?_, ?_, ?_⟩
  · intro env targetScale ghQueries webQueries maxRounds seedTake convergeDelta
    have h := @expandRounds_inv env (resolve_target targetScale)
      seedTake convergeDelta (maxRounds - 1)
      (runWebQueries env (runGithubQueries env initRunSt ghQueries) webQueries)
      (runWebQueries_inv webQueries (runGithubQueries_inv ghQueries initRunSt_inv))
    exact h.ledger_nodup
  · intro env st q h
    simp only [runGithubQuery]
    rw [if_pos (Or.inr h)]
  · intro env st q h
    simp only [runWebQuery]
    rw [if_pos (Or.inr h)]

/-- Witness for C6: instantiation at a concrete state in which the stripped
query was already issued. -/
theorem query_ledger_nodup_witness :
    pyStrip " q " ∈ (⟨["x/y"], ["q"], [], ["[GH] q"]⟩ : RunSt).searchedGithub ∧
    runGithubQuery ⟨fun _ => [some "z/w"], fun _ => []⟩ ⟨["x/y"], ["q"], [], ["[GH] q"]⟩ " q " =
      ⟨["x/y"], ["q"], [], ["[GH] q"]⟩ :=
  ⟨by decide, query_ledger_nodup.2.1 ⟨fun _ => [some "z/w"], fun _ => []⟩
    ⟨["x/y"], ["q"], [], ["[GH] q"]⟩ " q " (by decide)⟩

/-- C7: whatever the two providers return, however often a canonical
owner/name identifier is observed, the candidate identifier list returned
by `collect_candidates_for_unit` is sorted and contains each identifier at
most once. -/
theorem candidate_output_sorted_nodup :
    ∀ env targetScale ghQueries webQueries maxRounds seedTake convergeDelta,
      (collect_candidates_for_unit env targetScale ghQueries webQueries maxRounds seedTake
        convergeDelta).candidate_full_names.Sorted (· ≤ ·) ∧
      (collect_candidates_for_unit env targetScale ghQueries webQueries maxRounds seedTake
        convergeDelta).candidate_full_names.Nodup := by
  intro env targetScale ghQueries webQueries maxRounds seedTake convergeDelta
  have h := @expandRounds_inv env (resolve_target targetScale)
    seedTake convergeDelta (maxRounds - 1)
    (runWebQueries env (runGithubQueries env initRunSt ghQueries) webQueries)
    (runWebQueries_inv webQueries (runGithubQueries_inv ghQueries initRunSt_inv))
  constructor
  · exact List.sorted_mergeSort' _
  · exact ((List.mergeSort_perm _ _).nodup_iff).mpr h.cand_nodup

end Ai4sEnum
